import Mathlib

/-!
Shallow embedding of the sturdy repository's locking, queue, workspace-db,
change-log and suggestion-service code, with theorems checking the
natural-language specification against it.
-/

/-- Go error values as the code observes them: `database/sql.ErrNoRows` /
`os.ErrNotExist`-style sentinel kinds, plain message errors, and
`fmt.Errorf("...: %w", err)` wrapping. -/
inductive GoError where
  | noRows : GoError
  | message : String → GoError
  | wrap : String → GoError → GoError
deriving DecidableEq, Repr

/-- Semantics of `errors.Is(err, sql.ErrNoRows)`: unwrap the `%w` chain and
compare against the sentinel. -/
def GoError.isNoRows : GoError → Bool
  | .noRows => true
  | .message _ => false
  | .wrap _ e => e.isNoRows

/- ## Locker (src/unnamed/part_001, package executor) -/

/-- Operations exposed by the underlying `github.com/gofrs/flock` object. -/
inductive FlockOp where
  | lock : FlockOp
  | unlock : FlockOp
  | rlock : FlockOp
  | runlock : FlockOp
deriving DecidableEq, Repr

/-- Result of one call into the flock library: success, failure with
`os.ErrNotExist` (the lock file is missing), or some other failure. -/
inductive FlockResult where
  | ok : FlockResult
  | errNotExist : FlockResult
  | errOther : String → FlockResult
deriving DecidableEq, Repr

/-- The four methods of the `fileLock` wrapper. -/
inductive FLMethod where
  | lockM : FLMethod
  | unlockM : FLMethod
  | rlockM : FLMethod
  | runlockM : FLMethod
deriving DecidableEq, Repr

/-- Which underlying flock call each `fileLock` method makes
(src/unnamed/part_001 lines 57-95).  Note that `fileLock.RUnlock`
invokes `fl.lock.Unlock()` (line 88), not `fl.lock.RUnlock()`. -/
def fileLockMethodOp : FLMethod → FlockOp
  | .lockM => .lock
  | .unlockM => .unlock
  | .rlockM => .rlock
  | .runlockM => .unlock

/-- The shared error handling of every `fileLock` method: an
`os.ErrNotExist` failure from the flock call is swallowed (`return nil`),
any other error is returned unchanged. -/
def tolerateNotExist : FlockResult → Except String Unit
  | .ok => .ok ()
  | .errNotExist => .ok ()
  | .errOther m => .error m

/-- Running one `fileLock` method, given the behaviour `call` of the
underlying flock object at this point in time. -/
def fileLockRun (call : FlockOp → FlockResult) (m : FLMethod) : Except String Unit :=
  tolerateNotExist (call (fileLockMethodOp m))

/-- Lock objects handed out by `locker.Get`: a fresh in-memory
`&sync.RWMutex{}` (identified by an allocation counter) or a
`flock.New(path)` file lock. -/
inductive LockObj where
  | mutexLock : Nat → LockObj
  | fileLock : String → LockObj
deriving DecidableEq, Repr

/-- True iff the lock object is an in-memory RW mutex. -/
def LockObj.isMutexLock : LockObj → Bool
  | .mutexLock _ => true
  | .fileLock _ => false

/-- State of a `locker`: the `locks` map (as an association list, most
recent insertion first) plus an allocation counter distinguishing fresh
mutexes. -/
structure LockerState where
  locks : List (String × LockObj)
  nextMutexId : Nat
deriving Repr

/-- A freshly constructed `locker` (`newLocker`). -/
def emptyLocker : LockerState := ⟨[], 0⟩

/-- Go map lookup on the association list. -/
def locksLookup : List (String × LockObj) → String → Option LockObj
  | [], _ => none
  | (k, l) :: rest, key => if k == key then some l else locksLookup rest key

/-- `locker.key` (part_001 lines 134-139): `"<codebase>/trunk"` when the
view id is nil, `"<codebase>/<view>"` otherwise. -/
def lockerKey (codebaseID : String) (viewID : Option String) : String :=
  match viewID with
  | none => codebaseID ++ "/trunk"
  | some v => codebaseID ++ "/" ++ v

/-- `lockFileName` (part_001 line 107). -/
def lockFileName : String := ".git/sturdy.lock"

/-- `locker.Get` (part_001 lines 110-132).  `viewPath` models
`provider.ViewPath`; `filepath.Join` is modelled as `/`-concatenation. -/
def lockerGet (viewPath : String → String → String) (s : LockerState)
    (codebaseID : String) (viewID : Option String) : LockObj × LockerState :=
  let key := lockerKey codebaseID viewID
  match locksLookup s.locks key with
  | some m => (m, s)
  | none =>
    match viewID with
    | none =>
      let m := LockObj.mutexLock s.nextMutexId
      (m, ⟨(key, m) :: s.locks, s.nextMutexId + 1⟩)
    | some v =>
      let l := LockObj.fileLock (viewPath codebaseID v ++ "/" ++ lockFileName)
      (l, ⟨(key, l) :: s.locks, s.nextMutexId⟩)

/-- Run a sequence of `Get` calls from a state. -/
def runGets (viewPath : String → String → String) :
    List (String × Option String) → LockerState → LockerState
  | [], s => s
  | (c, v) :: rest, s => runGets viewPath rest (lockerGet viewPath s c v).2

/-- The kind of lock the spec promises for a `(codebase, view?)` pair:
an in-memory mutex for nil view ids, a file lock on
`<view path>/.git/sturdy.lock` otherwise. -/
def kindMatches (viewPath : String → String → String) :
    String → Option String → LockObj → Prop
  | _, none, l => ∃ n, l = LockObj.mutexLock n
  | c, some v, l => l = LockObj.fileLock (viewPath c v ++ "/" ++ lockFileName)

/-- Every stored entry was created by some `Get` call of the history and
has the kind that call's view id dictates. -/
def LockerInv (viewPath : String → String → String)
    (calls : List (String × Option String)) (s : LockerState) : Prop :=
  ∀ k l, (k, l) ∈ s.locks →
    ∃ c v, (c, v) ∈ calls ∧ k = lockerKey c v ∧ kindMatches viewPath c v l

theorem locksLookup_mem {lst : List (String × LockObj)} {k : String} {l : LockObj}
    (h : locksLookup lst k = some l) : (k, l) ∈ lst := by
  induction lst with
  | nil => simp [locksLookup] at h
  | cons p rest ih =>
    obtain ⟨k', l'⟩ := p
    simp only [locksLookup] at h
    by_cases hk : k' = k
    · subst hk
      simp at h
      subst h
      exact List.mem_cons_self _ _
    · have hkb : (k' == k) = false := beq_eq_false_iff_ne.mpr hk
      rw [hkb] at h
      simp at h
      exact List.mem_cons_of_mem _ (ih h)

theorem lockerGet_lookup_self (viewPath : String → String → String) (s : LockerState)
    (c : String) (v : Option String) :
    locksLookup (lockerGet viewPath s c v).2.locks (lockerKey c v)
      = some (lockerGet viewPath s c v).1 := by
  unfold lockerGet
  cases h : locksLookup s.locks (lockerKey c v) with
  | some m => simp [h]
  | none =>
    cases v with
    | none => simp [locksLookup, h]
    | some vid => simp [locksLookup, h]

theorem locksLookup_lockerGet_stable (viewPath : String → String → String)
    (s : LockerState) (c : String) (v : Option String) {k : String} {l : LockObj}
    (h : locksLookup s.locks k = some l) :
    locksLookup (lockerGet viewPath s c v).2.locks k = some l := by
  unfold lockerGet
  cases h2 : locksLookup s.locks (lockerKey c v) with
  | some m => simpa [h2] using h
  | none =>
    have hne : (lockerKey c v == k) = false := by
      by_contra hcontra
      simp only [Bool.not_eq_false, beq_iff_eq] at hcontra
      rw [hcontra] at h2
      rw [h2] at h
      exact Option.noConfusion h
    cases v with
    | none => simp [locksLookup, hne, h, h2]
    | some vid => simp [locksLookup, hne, h, h2]

theorem locksLookup_runGets_stable (viewPath : String → String → String)
    (calls : List (String × Option String)) (s : LockerState) {k : String} {l : LockObj}
    (h : locksLookup s.locks k = some l) :
    locksLookup (runGets viewPath calls s).locks k = some l := by
  induction calls generalizing s with
  | nil => simpa [runGets] using h
  | cons p rest ih =>
    obtain ⟨c, v⟩ := p
    exact ih _ (locksLookup_lockerGet_stable viewPath s c v h)

theorem lockerGet_of_lookup (viewPath : String → String → String) (s : LockerState)
    (c : String) (v : Option String) {l : LockObj}
    (h : locksLookup s.locks (lockerKey c v) = some l) :
    (lockerGet viewPath s c v).1 = l := by
  unfold lockerGet
  simp [h]

theorem lockerInv_get (viewPath : String → String → String)
    (calls : List (String × Option String)) (s : LockerState)
    (c : String) (v : Option String)
    (hinv : LockerInv viewPath calls s) (hmem : (c, v) ∈ calls) :
    LockerInv viewPath calls (lockerGet viewPath s c v).2 := by
  unfold lockerGet
  cases h : locksLookup s.locks (lockerKey c v) with
  | some m => simpa [h] using hinv
  | none =>
    cases v with
    | none =>
      simp only [h]
      intro k l hkl
      rcases List.mem_cons.mp hkl with heq | htail
      · refine ⟨c, none, hmem, ?_, ?_⟩
        · exact congrArg Prod.fst heq
        · have : l = LockObj.mutexLock s.nextMutexId := congrArg Prod.snd heq
          exact ⟨s.nextMutexId, this⟩
      · exact hinv k l htail
    | some vid =>
      simp only [h]
      intro k l hkl
      rcases List.mem_cons.mp hkl with heq | htail
      · refine ⟨c, some vid, hmem, ?_, ?_⟩
        · exact congrArg Prod.fst heq
        · exact congrArg Prod.snd heq
      · exact hinv k l htail

theorem lockerInv_runGets (viewPath : String → String → String)
    (calls done : List (String × Option String)) (s : LockerState)
    (hinv : LockerInv viewPath done s) (hsub : ∀ p ∈ calls, p ∈ done) :
    LockerInv viewPath done (runGets viewPath calls s) := by
  induction calls generalizing s with
  | nil => simpa [runGets] using hinv
  | cons p rest ih =>
    obtain ⟨c, v⟩ := p
    refine ih _ (lockerInv_get viewPath done s c v hinv ?_) ?_
    · exact hsub (c, v) (List.mem_cons_self _ _)
    · intro q hq
      exact hsub q (List.mem_cons_of_mem _ hq)

theorem lockerInv_empty (viewPath : String → String → String)
    (calls : List (String × Option String)) : LockerInv viewPath calls emptyLocker := by
  intro k l hkl
  simp [emptyLocker] at hkl

/-- A concrete `provider.ViewPath` used for evaluation. -/
def demoViewPath (c v : String) : String := "/repos/" ++ c ++ "/" ++ v

/-- Locker state after a single `Get("cb", &"trunk")` call on a fresh locker. -/
def demoTrunkViewState : LockerState :=
  (lockerGet demoViewPath emptyLocker "cb" (some "trunk")).2

/-- C1: `fileLock.RUnlock` does not perform the shared (read) release that
would be symmetric to `RLock`; it invokes the full `Unlock` of the
underlying flock instead.  This evaluates the code at the divergence. -/
theorem rUnlock_performs_full_unlock :
    fileLockMethodOp FLMethod.runlockM = FlockOp.unlock ∧
    fileLockMethodOp FLMethod.runlockM ≠ FlockOp.runlock ∧
    fileLockMethodOp FLMethod.rlockM = FlockOp.rlock := by decide

/-- C3: every `fileLock` method returns nil when the underlying flock call
fails with `os.ErrNotExist`, and returns any other failure unchanged. -/
theorem fileLock_tolerates_missing_lockfile (call : FlockOp → FlockResult) (m : FLMethod) :
    (fileLockRun call m = .ok () ↔
      (call (fileLockMethodOp m) = .ok ∨ call (fileLockMethodOp m) = .errNotExist)) ∧
    (∀ msg, fileLockRun call m = .error msg ↔ call (fileLockMethodOp m) = .errOther msg) := by
  constructor
  · unfold fileLockRun tolerateNotExist
    cases call (fileLockMethodOp m) <;> simp
  · intro msg
    unfold fileLockRun tolerateNotExist
    cases call (fileLockMethodOp m) <;> simp

/-- C2 counterexample: on a fresh locker, `Get("cb", &"trunk")` stores a
file lock under the key `"cb/trunk"`; the subsequent `Get("cb", nil)`
returns that very file lock, not an in-memory RW mutex, because
`locker.key` maps both pairs to the same key. -/
theorem lockerGet_nil_after_trunk_view_not_mutex :
    LockObj.isMutexLock (lockerGet demoViewPath demoTrunkViewState "cb" none).1 = false ∧
    (lockerGet demoViewPath demoTrunkViewState "cb" none).1
      = LockObj.fileLock "/repos/cb/trunk/.git/sturdy.lock" := by
  constructor <;> decide

/-- C2 (amended): repeated `locker.Get` calls for the same
`(codebase, view?)` pair return the same lock object — the singleton
stored under `lockerKey` — unconditionally, from any locker state and
across arbitrary interleaved `Get` calls; and, provided no other pair
used in the process maps to the same key string (in particular no view
with id `"trunk"` on the same codebase), the object is an in-memory RW
mutex when the view id is nil, an advisory file lock on
`<view path>/.git/sturdy.lock` otherwise. -/
theorem lockerGet_singleton_and_kind :
    (∀ (viewPath : String → String → String) (s : LockerState)
        (c : String) (v : Option String),
      (locksLookup (lockerGet viewPath s c v).2.locks (lockerKey c v)
        = some (lockerGet viewPath s c v).1) ∧
      (∀ later,
        (lockerGet viewPath (runGets viewPath later (lockerGet viewPath s c v).2) c v).1
          = (lockerGet viewPath s c v).1)) ∧
    (∀ (viewPath : String → String → String) (calls : List (String × Option String))
        (c : String) (v : Option String),
      (∀ p ∈ calls, lockerKey p.1 p.2 = lockerKey c v → p = (c, v)) →
      kindMatches viewPath c v (lockerGet viewPath (runGets viewPath calls emptyLocker) c v).1) := by
  constructor
  · intro viewPath s c v
    refine ⟨lockerGet_lookup_self viewPath s c v, ?_⟩
    intro later
    have h1 := lockerGet_lookup_self viewPath s c v
    have h2 := locksLookup_runGets_stable viewPath later _ h1
    exact lockerGet_of_lookup viewPath _ c v h2
  · intro viewPath calls c v hinj
    have hinv : LockerInv viewPath calls (runGets viewPath calls emptyLocker) :=
      lockerInv_runGets viewPath calls calls emptyLocker
        (lockerInv_empty viewPath calls) (fun p hp => hp)
    cases h : locksLookup (runGets viewPath calls emptyLocker).locks (lockerKey c v) with
    | some l =>
      obtain ⟨c', v', hmem, hkey, hkind⟩ := hinv _ _ (locksLookup_mem h)
      have hpair : (c', v') = (c, v) := hinj (c', v') hmem hkey.symm
      rw [lockerGet_of_lookup viewPath _ c v h]
      have hc : c' = c := congrArg Prod.fst hpair
      have hv : v' = v := congrArg Prod.snd hpair
      rw [hc, hv] at hkind
      exact hkind
    | none =>
      unfold lockerGet
      cases v with
      | none => simp [h, kindMatches]
      | some vid => simp [h, kindMatches]

/-- Witness for C2: the singleton part evaluated on the collision history
itself — a `Get("cb", nil)` repeated across an interleaved
`Get("cb", &"trunk")` still returns the first object — and the kind part
on a collision-free history, where the lock for `("cb", &"v1")` is a file
lock on the view path. -/
theorem lockerGet_singleton_and_kind_witness :
    (lockerGet demoViewPath
        (runGets demoViewPath [("cb", some "trunk")]
          (lockerGet demoViewPath emptyLocker "cb" none).2)
        "cb" none).1
      = (lockerGet demoViewPath emptyLocker "cb" none).1 ∧
    kindMatches demoViewPath "cb" (some "v1")
      (lockerGet demoViewPath (runGets demoViewPath [("cb", none)] emptyLocker)
        "cb" (some "v1")).1 :=
  ⟨(lockerGet_singleton_and_kind.1 demoViewPath emptyLocker "cb" none).2
      [("cb", some "trunk")],
    lockerGet_singleton_and_kind.2 demoViewPath [("cb", none)] "cb" (some "v1")
      (by decide)⟩

/- ## In-memory queue (src/unnamed/part_002, package queue) -/

/-- One message delivery performed by `InMemoryQueue.Publish`: the target
subscriber channel, the JSON-encoded payload of the fresh
`inmemorymessage`, and whether the publishing goroutine blocked on
`AwaitAcked` for it (`q.sync`). -/
structure Delivery where
  chan : Nat
  payload : String
  awaitedAck : Bool
deriving DecidableEq, Repr

/-- `InMemoryQueue` state: the `sync` testing flag and the `chans` map from
queue name to the subscribed channels, in subscription order. -/
structure InMemoryQueue where
  sync : Bool
  chans : List (String × List Nat)
deriving Repr

/-- Go map lookup in `q.chans`. -/
def chansLookup : List (String × List Nat) → String → Option (List Nat)
  | [], _ => none
  | (k, cs) :: rest, name => if k == name then some cs else chansLookup rest name

/-- `InMemoryQueue.Sync` (part_002 lines 44-47): sets the sync flag. -/
def queueSync (q : InMemoryQueue) : InMemoryQueue := { q with sync := true }

/-- `InMemoryQueue.Subscribe` (part_002 lines 104-111): appends the channel
under the queue name (`q.chans[name] = append(q.chans[name], messages)`). -/
def chansAppend : List (String × List Nat) → String → Nat → List (String × List Nat)
  | [], name, ch => [(name, [ch])]
  | (k, cs) :: rest, name, ch =>
    if k == name then (k, cs ++ [ch]) :: rest else (k, cs) :: chansAppend rest name ch

/-- The state change performed by `InMemoryQueue.Subscribe`. -/
def subscribe (q : InMemoryQueue) (name : String) (ch : Nat) : InMemoryQueue :=
  { q with chans := chansAppend q.chans name ch }

/-- `InMemoryQueue.Publish` (part_002 lines 78-102): nothing is delivered
when no channel is subscribed under this name; otherwise the message is
JSON-encoded into a fresh `inmemorymessage` for each subscriber (an
encoding failure aborts with an error), one message is sent on every
subscribed channel, and the publisher awaits the per-subscriber ack
exactly when `sync` is set. -/
def publish {μ : Type} (encode : μ → Except String String)
    (q : InMemoryQueue) (name : String) (msg : μ) :
    Except String Unit × List Delivery :=
  match chansLookup q.chans name with
  | none => (.ok (), [])
  | some cs =>
    match encode msg with
    | .error e => (.error ("failed to create message: " ++ e), [])
    | .ok bytes => (.ok (), cs.map (fun ch => ⟨ch, bytes, q.sync⟩))

/-- C9: `Publish` returns nil with no delivery when nothing is subscribed
under the name; otherwise it delivers one freshly encoded message per
subscriber of exactly that name, and the per-subscriber ack is awaited
exactly when `Sync()` has been set. -/
theorem inMemoryQueue_publish_delivery {μ : Type} (encode : μ → Except String String)
    (q : InMemoryQueue) (name : String) (msg : μ) :
    (chansLookup q.chans name = none → publish encode q name msg = (.ok (), [])) ∧
    (∀ cs bytes, chansLookup q.chans name = some cs → encode msg = .ok bytes →
      publish encode q name msg
        = (.ok (), cs.map (fun ch => ⟨ch, bytes, q.sync⟩))) ∧
    (∀ d ∈ (publish encode q name msg).2, d.awaitedAck = q.sync) ∧
    (∀ d ∈ (publish encode (queueSync q) name msg).2, d.awaitedAck = true) := by
  refine ⟨?_, ?_, ?_, ?_⟩
  · intro h
    simp [publish, h]
  · intro cs bytes h1 h2
    simp [publish, h1, h2]
  · intro d hd
    unfold publish at hd
    cases h : chansLookup q.chans name with
    | none => simp [h] at hd
    | some cs =>
      cases h2 : encode msg with
      | error e => simp [h, h2] at hd
      | ok bytes =>
        simp [h, h2] at hd
        obtain ⟨ch, _, hch⟩ := hd
        rw [← hch]
  · intro d hd
    unfold publish queueSync at hd
    cases h : chansLookup q.chans name with
    | none => simp [h] at hd
    | some cs =>
      cases h2 : encode msg with
      | error e => simp [h, h2] at hd
      | ok bytes =>
        simp [h, h2] at hd
        obtain ⟨ch, _, hch⟩ := hd
        rw [← hch]

/-- A queue with two subscribers on `snapshot_workspace`, in sync mode. -/
def demoQueue : InMemoryQueue := ⟨true, [("snapshot_workspace", [1, 2])]⟩

/-- A concrete JSON encoder for the witness. -/
def demoEncode (n : Nat) : Except String String := .ok (toString n)

/-- Witness for C9 at a concrete queue, name and message. -/
theorem inMemoryQueue_publish_delivery_witness :
    chansLookup demoQueue.chans "snapshot_workspace" = some [1, 2] ∧
    demoEncode 7 = .ok "7" ∧
    publish demoEncode demoQueue "snapshot_workspace" 7
      = (.ok (), [⟨1, "7", true⟩, ⟨2, "7", true⟩]) :=
  ⟨by decide, by rfl,
    (inMemoryQueue_publish_delivery demoEncode demoQueue "snapshot_workspace" 7).2.1
      [1, 2] "7" (by decide) (by rfl)⟩

/- ## Workspace records and the in-memory repository (src/unnamed/part_004) -/

/-- A workspace record, with the fields the in-memory repository's
`UpdateFields` (part_004 lines 51-102) reads and writes. -/
structure Workspace where
  id : String
  codebaseID : String
  userID : String
  name : Option String
  viewID : Option String
  latestSnapshotID : Option String
  upToDateWithTrunk : Option Bool
  headChangeID : Option String
  headChangeComputed : Bool
  diffsCount : Option Nat
  changeID : Option String
  draftDescription : String
  archivedAt : Option Nat
  unarchivedAt : Option Nat
  lastLandedAt : Option Nat
  createdAt : Nat
  updatedAt : Option Nat
deriving DecidableEq, Repr

/-- `memory.UnsetUpToDateWithTrunkForAllInCodebase` (part_004 lines 42-49):
clear `UpToDateWithTrunk` on every workspace of the codebase, touch
nothing else. -/
def unsetUpToDateWithTrunkForAllInCodebase
    (ws : List Workspace) (codebaseID : String) : List Workspace :=
  ws.map (fun w =>
    if w.codebaseID = codebaseID then { w with upToDateWithTrunk := none } else w)

/-- C7: after `UnsetUpToDateWithTrunkForAllInCodebase(codebaseID)`, every
workspace of that codebase has `UpToDateWithTrunk = nil` and is otherwise
unchanged, and every workspace of any other codebase is unchanged in all
fields (positions are preserved). -/
theorem unsetUpToDateWithTrunk_frame (ws : List Workspace) (c : String) :
    (unsetUpToDateWithTrunkForAllInCodebase ws c).length = ws.length ∧
    (∀ i w, ws.get? i = some w → w.codebaseID = c →
      (unsetUpToDateWithTrunkForAllInCodebase ws c).get? i
        = some { w with upToDateWithTrunk := none }) ∧
    (∀ i w, ws.get? i = some w → w.codebaseID ≠ c →
      (unsetUpToDateWithTrunkForAllInCodebase ws c).get? i = some w) := by
  refine ⟨List.length_map _ _, ?_, ?_⟩
  · intro i w hi hc
    unfold unsetUpToDateWithTrunkForAllInCodebase
    rw [List.get?_map, hi]
    simp [hc]
  · intro i w hi hc
    unfold unsetUpToDateWithTrunkForAllInCodebase
    rw [List.get?_map, hi]
    simp [hc]

/-- A workspace of codebase `cb1` whose trunk freshness is known. -/
def demoWs0 : Workspace :=
  ⟨"ws0", "cb1", "u1", some "main", none, some "snap0", some true, none, false,
    some 2, none, "", none, none, none, 1, none⟩

/-- A workspace of another codebase. -/
def demoWs1 : Workspace :=
  ⟨"ws1", "cb2", "u2", none, some "v1", none, some false, none, false,
    none, none, "d", none, none, none, 2, none⟩

/-- Witness for C7 on a concrete two-workspace store. -/
theorem unsetUpToDateWithTrunk_frame_witness :
    [demoWs0, demoWs1].get? 0 = some demoWs0 ∧
    (unsetUpToDateWithTrunkForAllInCodebase [demoWs0, demoWs1] "cb1").get? 0
      = some { demoWs0 with upToDateWithTrunk := none } ∧
    (unsetUpToDateWithTrunkForAllInCodebase [demoWs0, demoWs1] "cb1").get? 1
      = some demoWs1 :=
  ⟨rfl,
    (unsetUpToDateWithTrunk_frame [demoWs0, demoWs1] "cb1").2.1 0 demoWs0 rfl (by decide),
    (unsetUpToDateWithTrunk_frame [demoWs0, demoWs1] "cb1").2.2 1 demoWs1 rfl (by decide)⟩

/- ## Change log (src/pkg/codebase/vcs/vcs.go) -/

/-- One entry of `repo.LogHead`. -/
structure LogEntry where
  id : String
  rawCommitMessage : String
deriving DecidableEq, Repr

/-- The effective limit of `ListChanges`: a default of 100 when no positive
limit is set (vcs.go lines 33-35). -/
def effectiveLimit (limit : Int) : Int := if limit < 1 then 100 else limit

/-- `ListChanges` (vcs.go lines 32-51): take the head log at the effective
limit and drop every entry whose raw commit message is exactly
`"Root Commit"`. -/
def listChanges (logHead : Int → Except GoError (List LogEntry)) (limit : Int) :
    Except GoError (List LogEntry) :=
  match logHead (effectiveLimit limit) with
  | .error e => .error (.wrap "failed to get changes" e)
  | .ok changeLog => .ok (changeLog.filter (fun e => !(e.rawCommitMessage == "Root Commit")))

/-- C8: no entry returned by `ListChanges` has raw commit message
`"Root Commit"`, and the result is exactly the head log (at the effective
limit) with the root commit removed: an order-preserving sublist
containing every non-root entry. -/
theorem listChanges_filters_root (logHead : Int → Except GoError (List LogEntry))
    (limit : Int) (res : List LogEntry)
    (h : listChanges logHead limit = .ok res) :
    (∀ e ∈ res, e.rawCommitMessage ≠ "Root Commit") ∧
    ∃ l, logHead (effectiveLimit limit) = .ok l ∧ List.Sublist res l ∧
      (∀ e ∈ l, e.rawCommitMessage ≠ "Root Commit" → e ∈ res) := by
  unfold listChanges at h
  cases hl : logHead (effectiveLimit limit) with
  | error e =>
    rw [hl] at h
    exact absurd h (by simp)
  | ok l =>
    rw [hl] at h
    have hres : res = l.filter (fun e => !(e.rawCommitMessage == "Root Commit")) := by
      cases h
      rfl
    subst hres
    refine ⟨?_, l, rfl, List.filter_sublist l, ?_⟩
    · intro e he
      have := (List.mem_filter.mp he).2
      simpa using this
    · intro e he hmsg
      exact List.mem_filter.mpr ⟨he, by simpa using hmsg⟩

/-- A concrete head log: one real change, then the root commit. -/
def demoLog : List LogEntry := [⟨"e1", "add feature"⟩, ⟨"e0", "Root Commit"⟩]

/-- A concrete `repo.LogHead`. -/
def demoLogHead (_ : Int) : Except GoError (List LogEntry) := .ok demoLog

/-- Witness for C8: with limit 0 (default applies), the root commit is
filtered and the other entry survives. -/
theorem listChanges_filters_root_witness :
    listChanges demoLogHead 0 = .ok [⟨"e1", "add feature"⟩] ∧
    (⟨"e1", "add feature"⟩ : LogEntry).rawCommitMessage ≠ "Root Commit" :=
  ⟨by rfl,
    (listChanges_filters_root demoLogHead 0 [⟨"e1", "add feature"⟩] (by rfl)).1
      ⟨"e1", "add feature"⟩ (by decide)⟩

/- ## Suggestion service (src/api/pkg/suggestions/service/service.go) -/

/-- A ledger hunk reference: `(preferred filename, 0-based hunk index)`
(`suggestions.Hunk`). -/
structure SuggestionHunk where
  fileName : String
  index : Nat
deriving DecidableEq, Repr

/-- Modelled from the spec: `suggestions.Hunk.String` is not among the
provided sources; the spec states the applied/dismissed ledger stores
`filename#index` pairs, so the ledger entry is rendered that way. -/
def SuggestionHunk.toLedgerEntry (h : SuggestionHunk) : String :=
  h.fileName ++ "#" ++ toString h.index

/-- Split a character list into the groups delimited by `#`. -/
def splitHash : List Char → List (List Char)
  | [] => [[]]
  | c :: cs =>
    match splitHash cs with
    | [] => [[]]
    | g :: gs => if c = '#' then [] :: g :: gs else (c :: g) :: gs

/-- Numeric value of a decimal digit character. -/
def digitVal? (c : Char) : Option Nat :=
  if c.isDigit then some (c.toNat - 48) else none

/-- Accumulating decimal parse. -/
def digitsToNatAux : Nat → List Char → Option Nat
  | acc, [] => some acc
  | acc, c :: cs =>
    match digitVal? c with
    | some d => digitsToNatAux (acc * 10 + d) cs
    | none => none

/-- Parse a non-empty decimal digit string. -/
def digitsToNat? : List Char → Option Nat
  | [] => none
  | cs => digitsToNatAux 0 cs

/-- Modelled from the spec: `suggestions.ParseAppliedHunkID` is not among
the provided sources; per the spec's `filename#index` ledger format it
splits on `#` and reads the 0-based index. -/
def parseAppliedHunkID (s : String) : Except GoError SuggestionHunk :=
  match splitHash s.toList with
  | [f, i] =>
    match digitsToNat? i with
    | some n => .ok ⟨String.mk f, n⟩
    | none => .error (.message "invalid hunk id")
  | _ => .error (.message "invalid hunk id")

/-- A suggestion record (`suggestions.Suggestion`). -/
structure Suggestion where
  id : String
  codebaseID : String
  workspaceID : String
  forWorkspaceID : String
  forSnapshotID : String
  userID : String
  createdAt : Nat
  dismissedAt : Option Nat
  notifiedAt : Option Nat
  appliedHunks : List String
  dismissedHunks : List String
deriving DecidableEq, Repr

/-- A snapshot record as the suggestion service reads it. -/
structure Snapshot where
  id : String
  commitSHA : String
deriving DecidableEq, Repr

/-- A decorated hunk of a unidiff `FileDiff`. -/
structure DiffHunk where
  id : String
  patch : String
  isApplied : Bool
  isDismissed : Bool
  isOutdated : Bool
deriving DecidableEq, Repr

/-- A decorated file diff. -/
structure FileDiff where
  preferredName : String
  hunks : List DiffHunk
deriving DecidableEq, Repr

/-- In-place update of one list position (`fd.Hunks[i] = f(fd.Hunks[i])`);
out-of-range indices leave the list unchanged. -/
def modifyAt {α : Type} (f : α → α) : Nat → List α → List α
  | _, [] => []
  | 0, x :: xs => f x :: xs
  | n + 1, x :: xs => x :: modifyAt f n xs

/-- One step of the applied/dismissed decoration loops (service.go lines
508-519): set the flag at `a.index` when the filename matches and the
index is in range. -/
def setHunkFlag (f : DiffHunk → DiffHunk) (fname : String)
    (hs : List DiffHunk) (a : SuggestionHunk) : List DiffHunk :=
  if a.fileName == fname && decide (a.index < hs.length) then modifyAt f a.index hs else hs

/-- Decoration of one file diff with the parsed applied and dismissed
ledger entries. -/
def markFileHunks (applied dismissed : List SuggestionHunk) (fd : FileDiff) : FileDiff :=
  let h1 := applied.foldl (setHunkFlag (fun h => { h with isApplied := true }) fd.preferredName) fd.hunks
  let h2 := dismissed.foldl (setHunkFlag (fun h => { h with isDismissed := true }) fd.preferredName) h1
  { fd with hunks := h2 }

/-- The outdated-marking loop over one file's hunks (service.go lines
527-542), started at index `i`: an applied or dismissed hunk is skipped;
otherwise `CanApplyPatch` is consulted (its index recorded in the tested
trace) and the hunk is marked outdated when the patch no longer applies. -/
def markOutdatedHunksGo (canApply : String → Except GoError Bool) :
    Nat → List DiffHunk → Except GoError (List DiffHunk × List Nat)
  | _, [] => .ok ([], [])
  | i, h :: hs =>
    if h.isApplied || h.isDismissed then
      match markOutdatedHunksGo canApply (i + 1) hs with
      | .error e => .error e
      | .ok (rest, tested) => .ok (h :: rest, tested)
    else
      match canApply h.patch with
      | .error e => .error (.wrap "can not check if patch can be applied" e)
      | .ok c =>
        match markOutdatedHunksGo canApply (i + 1) hs with
        | .error e => .error e
        | .ok (rest, tested) =>
          .ok ((if c then h else { h with isOutdated := true }) :: rest, i :: tested)

/-- The outdated-marking pass over all file diffs. -/
def markOutdatedFiles (canApply : String → Except GoError Bool) :
    List FileDiff → Except GoError (List FileDiff)
  | [] => .ok []
  | fd :: rest =>
    match markOutdatedHunksGo canApply 0 fd.hunks with
    | .error e => .error e
    | .ok (hs, _) =>
      match markOutdatedFiles canApply rest with
      | .error e => .error e
      | .ok rest' => .ok ({ fd with hunks := hs } :: rest')

/-- Parse a whole ledger (service.go lines 488-504); the first malformed
entry aborts. -/
def parseHunks : List String → Except GoError (List SuggestionHunk)
  | [] => .ok []
  | x :: xs =>
    match parseAppliedHunkID x with
    | .error e => .error (.wrap "couldn't parse applied hunk id" e)
    | .ok h =>
      match parseHunks xs with
      | .error e => .error e
      | .ok rest => .ok (h :: rest)

/-- The git-library boundary used by the suggestion service, over an
abstract on-disk repository state `ρ`: diffing two commits (including the
unidiff decoration), the patch dry-run, snapshot checkout, patch
application to a work tree, and snapshot creation for a workspace. -/
structure GitOps (ρ : Type) where
  diffCommits : ρ → String → String → Except GoError (List FileDiff)
  canApplyPatch : ρ → String → Except GoError Bool
  checkoutSnapshot : ρ → String → Except GoError ρ
  applyPatchesToWorkdir : ρ → List String → Except GoError ρ
  makeSnapshot : ρ → String → Except GoError (ρ × Snapshot)

/-- The state the suggestion service can read or write: the relational
records and the abstract repository state. -/
structure SuggestionWorld (ρ : Type) where
  codebases : List String
  workspaces : List Workspace
  snapshots : List Snapshot
  suggestions : List Suggestion
  repo : ρ

/-- Workspace lookup by id (`workspaceService.GetByID`, backed by the
workspace repository; `sql.ErrNoRows` when absent). -/
def dbGetWorkspace {ρ : Type} (w : SuggestionWorld ρ) (id : String) :
    Except GoError Workspace :=
  match w.workspaces.find? (fun x => x.id == id) with
  | some x => .ok x
  | none => .error .noRows

/-- Snapshot lookup by id (`snapshotter.GetByID`). -/
def dbGetSnapshot {ρ : Type} (w : SuggestionWorld ρ) (id : String) :
    Except GoError Snapshot :=
  match w.snapshots.find? (fun x => x.id == id) with
  | some x => .ok x
  | none => .error .noRows

/-- `suggestionRepo.Update`: replace the stored record with the same id. -/
def updateSuggestion (lst : List Suggestion) (s : Suggestion) : List Suggestion :=
  lst.map (fun x => if x.id == s.id then s else x)

/-- `Service.diffs` (service.go lines 442-549): diff the suggesting
workspace's latest snapshot against the fork-time snapshot, decorate
applied/dismissed from the ledgers, and mark outdated hunks only when the
target workspace has a view. -/
def serviceDiffs {ρ : Type} (git : GitOps ρ) (w : SuggestionWorld ρ)
    (sugg : Suggestion) (originalWorkspace : Workspace) :
    Except GoError (List FileDiff) :=
  match dbGetWorkspace w sugg.workspaceID with
  | .error e => .error (.wrap "failed to get suggesting workspace" e)
  | .ok suggestingWorkspace =>
    match suggestingWorkspace.latestSnapshotID with
    | none => .ok []
    | some sid =>
      match dbGetSnapshot w sid with
      | .error e => .error (.wrap "failed to get suggesting snapshot" e)
      | .ok suggestingSnapshot =>
        match dbGetSnapshot w sugg.forSnapshotID with
        | .error e => .error (.wrap "failed to get base snapshot" e)
        | .ok baseSnapshot =>
          match git.diffCommits w.repo baseSnapshot.commitSHA suggestingSnapshot.commitSHA with
          | .error e => .error (.wrap "failed to get diffs" e)
          | .ok rawDiffs =>
            match parseHunks sugg.appliedHunks with
            | .error e => .error e
            | .ok applied =>
              match parseHunks sugg.dismissedHunks with
              | .error e => .error e
              | .ok dismissed =>
                let marked := rawDiffs.map (markFileHunks applied dismissed)
                match originalWorkspace.viewID with
                | none => .ok marked
                | some _ => markOutdatedFiles (git.canApplyPatch w.repo) marked

/-- The hunk-selection loop shared by `ApplyHunks` and `DismissHunks`
(service.go lines 244-256 and 329-339), over one file's hunks starting at
index `i`: each hunk whose client-visible hash id is selected contributes
its patch and the ledger entry `(preferred filename, index)`. -/
def selectedFromFileGo (sel : String → Bool) (fname : String) :
    Nat → List DiffHunk → List (String × String)
  | _, [] => []
  | i, h :: hs =>
    if sel h.id then
      (h.patch, SuggestionHunk.toLedgerEntry ⟨fname, i⟩) :: selectedFromFileGo sel fname (i + 1) hs
    else
      selectedFromFileGo sel fname (i + 1) hs

/-- Hunk selection over one file diff. -/
def selectedFromFile (sel : String → Bool) (fd : FileDiff) : List (String × String) :=
  selectedFromFileGo sel fd.preferredName 0 fd.hunks

/-- Hunk selection over all file diffs, in file order. -/
def selectedAll (sel : String → Bool) : List FileDiff → List (String × String)
  | [] => []
  | fd :: fds => selectedFromFile sel fd ++ selectedAll sel fds

/-- `Service.ApplyHunks` (service.go lines 222-306): select hunks by hash
id, apply their patches to the target workspace's view (or to a temporary
view checked out from its latest snapshot, followed by a new snapshot
marked latest), then append the `(filename, index)` ledger entries to
`AppliedHunks` and persist. -/
def applyHunks {ρ : Type} (git : GitOps ρ) (w : SuggestionWorld ρ)
    (sugg : Suggestion) (hunkIDs : List String) :
    Except GoError (SuggestionWorld ρ) :=
  if hunkIDs.isEmpty then .ok w
  else
    match dbGetWorkspace w sugg.forWorkspaceID with
    | .error e => .error (.wrap "failed to get original workspace" e)
    | .ok originalWorkspace =>
      match serviceDiffs git w sugg originalWorkspace with
      | .error e => .error (.wrap "failed to get diffs" e)
      | .ok fileDiffs =>
        let chosen := selectedAll (fun id => hunkIDs.contains id) fileDiffs
        let patches := chosen.map Prod.fst
        let entries := chosen.map Prod.snd
        let s' := { sugg with appliedHunks := sugg.appliedHunks ++ entries }
        match originalWorkspace.viewID with
        | none =>
          match originalWorkspace.latestSnapshotID with
          | none => .error (.message "nil latest snapshot id")
          | some sid =>
            match dbGetSnapshot w sid with
            | .error e => .error (.wrap "failed to get snapshot" e)
            | .ok snap =>
              match git.checkoutSnapshot w.repo snap.commitSHA with
              | .error e => .error (.wrap "failed to apply patches" e)
              | .ok r1 =>
                match git.applyPatchesToWorkdir r1 patches with
                | .error e => .error (.wrap "failed to apply patches" e)
                | .ok r2 =>
                  match git.makeSnapshot r2 originalWorkspace.id with
                  | .error e => .error (.wrap "failed to apply patches" e)
                  | .ok (r3, newSnap) =>
                    .ok { w with
                      repo := r3,
                      snapshots := newSnap :: w.snapshots,
                      workspaces := w.workspaces.map (fun x =>
                        if x.id == originalWorkspace.id
                        then { x with latestSnapshotID := some newSnap.id } else x),
                      suggestions := updateSuggestion w.suggestions s' }
        | some _ =>
          match git.applyPatchesToWorkdir w.repo patches with
          | .error e => .error (.wrap "failed to apply patches" e)
          | .ok r1 =>
            .ok { w with repo := r1, suggestions := updateSuggestion w.suggestions s' }

/-- `Service.DismissHunks` (service.go lines 309-353): select hunks by hash
id and append their `(filename, index)` ledger entries to
`DismissedHunks`; no repository operation is performed. -/
def dismissHunks {ρ : Type} (git : GitOps ρ) (w : SuggestionWorld ρ)
    (sugg : Suggestion) (hunkIDs : List String) :
    Except GoError (SuggestionWorld ρ) :=
  if hunkIDs.isEmpty then .ok w
  else
    match dbGetWorkspace w sugg.forWorkspaceID with
    | .error e => .error (.wrap "failed to get original workspace" e)
    | .ok originalWorkspace =>
      match serviceDiffs git w sugg originalWorkspace with
      | .error e => .error (.wrap "failed to get diffs" e)
      | .ok fileDiffs =>
        let entries := (selectedAll (fun id => hunkIDs.contains id) fileDiffs).map Prod.snd
        let s' := { sugg with dismissedHunks := sugg.dismissedHunks ++ entries }
        .ok { w with suggestions := updateSuggestion w.suggestions s' }

/-- `Service.Dismiss` (service.go lines 212-219): set `DismissedAt` and
persist. -/
def dismissSuggestion {ρ : Type} (w : SuggestionWorld ρ) (now : Nat)
    (sugg : Suggestion) : Except GoError (SuggestionWorld ρ) :=
  let s' := { sugg with dismissedAt := some now }
  .ok { w with suggestions := updateSuggestion w.suggestions s' }

/-- `Service.GetByWorkspaceID` (service.go lines 175-184): look the
suggestion up by its suggesting workspace id, then check its codebase
exists; errors are wrapped with context. -/
def getByWorkspaceIDModel {ρ : Type} (w : SuggestionWorld ρ) (workspaceID : String) :
    Except GoError Suggestion :=
  match w.suggestions.find? (fun s => s.workspaceID == workspaceID) with
  | none => .error (.wrap "failed to get suggestion" .noRows)
  | some s =>
    if w.codebases.contains s.codebaseID then .ok s
    else .error (.wrap "failed to get codebase" .noRows)

/-- `Service.RecordActivity` (service.go lines 76-119): no-op when no
suggestion is made from the workspace; otherwise notify the target
workspace's owner when `NotifiedAt` is nil (setting it), clear a set
`DismissedAt`, and persist exactly when either happened.  The returned
list holds the notifications sent, as `(recipient user id, suggestion
id)` pairs. -/
def recordActivity {ρ : Type} (w : SuggestionWorld ρ) (now : Nat) (workspaceID : String) :
    Except GoError (SuggestionWorld ρ × List (String × String)) :=
  match getByWorkspaceIDModel w workspaceID with
  | .error e =>
    if e.isNoRows then .ok (w, [])
    else .error (.wrap "failed to get suggestion" e)
  | .ok suggestion =>
    match dbGetWorkspace w suggestion.forWorkspaceID with
    | .error e => .error (.wrap "failed to get workspace" e)
    | .ok forWorkspace =>
      let shouldNotify := suggestion.notifiedAt.isNone
      let notifs := if shouldNotify then [(forWorkspace.userID, suggestion.id)] else []
      let s1 := if shouldNotify then { suggestion with notifiedAt := some now } else suggestion
      let shouldResurrect := suggestion.dismissedAt.isSome
      let s2 := if shouldResurrect then { s1 with dismissedAt := none } else s1
      if shouldNotify || shouldResurrect then
        .ok ({ w with suggestions := updateSuggestion w.suggestions s2 }, notifs)
      else
        .ok (w, notifs)

theorem getByWorkspaceIDModel_ok {ρ : Type} {w : SuggestionWorld ρ} {wsID : String}
    {s : Suggestion} (h : getByWorkspaceIDModel w wsID = .ok s) :
    w.suggestions.find? (fun x => x.workspaceID == wsID) = some s ∧
    w.codebases.contains s.codebaseID = true := by
  unfold getByWorkspaceIDModel at h
  split at h
  next hf => exact Except.noConfusion h
  next s0 hf =>
    split at h
    next hc =>
      injection h with h'
      subst h'
      exact ⟨hf, hc⟩
    next hc => exact Except.noConfusion h

theorem getByWorkspaceIDModel_build {ρ : Type} {w : SuggestionWorld ρ} {wsID : String}
    {s : Suggestion}
    (hf : w.suggestions.find? (fun x => x.workspaceID == wsID) = some s)
    (hc : w.codebases.contains s.codebaseID = true) :
    getByWorkspaceIDModel w wsID = .ok s := by
  unfold getByWorkspaceIDModel
  simp [hf]
  simpa using hc

theorem find?_updateSuggestion (lst : List Suggestion) (q : String) (s s2 : Suggestion)
    (hfind : lst.find? (fun x => x.workspaceID == q) = some s)
    (hid : s2.id = s.id) (hq : s2.workspaceID = s.workspaceID) :
    (updateSuggestion lst s2).find? (fun x => x.workspaceID == q) = some s2 := by
  have hsq : s.workspaceID = q := by
    have h0 := List.find?_some hfind
    simpa using h0
  have hs2q : (s2.workspaceID == q) = true := by simp [hq, hsq]
  induction lst with
  | nil => simp at hfind
  | cons x rest ih =>
    rw [List.find?_cons] at hfind
    by_cases hx : (x.workspaceID == q) = true
    · rw [hx] at hfind
      simp at hfind
      subst hfind
      have hxid : (x.id == s2.id) = true := by simp [hid]
      unfold updateSuggestion
      rw [List.map_cons, if_pos hxid, List.find?_cons, hs2q]
    · rw [Bool.not_eq_true] at hx
      rw [hx] at hfind
      unfold updateSuggestion
      rw [List.map_cons]
      by_cases hxid : (x.id == s2.id) = true
      · rw [if_pos hxid, List.find?_cons, hs2q]
      · rw [Bool.not_eq_true] at hxid
        rw [if_neg (by simp [hxid]), List.find?_cons, hx]
        exact ih hfind

/-- The suggestion record as `RecordActivity` persists it: `NotifiedAt`
set (to the current time when previously nil), `DismissedAt` cleared. -/
def recordActivityRecord (now : Nat) (s : Suggestion) : Suggestion :=
  { s with
    notifiedAt := if s.notifiedAt.isNone then some now else s.notifiedAt,
    dismissedAt := none }

theorem recordActivity_eq {ρ : Type} (w : SuggestionWorld ρ) (now : Nat) (wsID : String)
    (s : Suggestion) (fw : Workspace)
    (hg : getByWorkspaceIDModel w wsID = .ok s)
    (hw : dbGetWorkspace w s.forWorkspaceID = .ok fw) :
    recordActivity w now wsID =
      .ok ((if s.notifiedAt.isNone || s.dismissedAt.isSome then
              { w with suggestions := updateSuggestion w.suggestions (recordActivityRecord now s) }
            else w),
           (if s.notifiedAt.isNone then [(fw.userID, s.id)] else [])) := by
  simp only [recordActivity, hg, hw]
  cases hn : s.notifiedAt with
  | none =>
    cases hd : s.dismissedAt with
    | none => simp [hn, hd, recordActivityRecord]
    | some d => simp [hn, hd, recordActivityRecord]
  | some t =>
    cases hd : s.dismissedAt with
    | none => simp [hn, hd, recordActivityRecord]
    | some d => simp [hn, hd, recordActivityRecord]

/-- C4: `RecordActivity` returns nil with no side effects when no
suggestion is made from the workspace; otherwise it notifies the target
workspace's owner exactly when `NotifiedAt` is nil, sets `NotifiedAt`,
clears a previously set `DismissedAt`, persists the record exactly when a
notification was sent or a dismissal was cleared — and consequently a
second call never notifies again. -/
theorem recordActivity_first_edit_notification :
    (∀ (ρ : Type) (w : SuggestionWorld ρ) (now : Nat) (wsID : String),
      w.suggestions.find? (fun x => x.workspaceID == wsID) = none →
      recordActivity w now wsID = .ok (w, [])) ∧
    (∀ (ρ : Type) (w : SuggestionWorld ρ) (now : Nat) (wsID : String)
        (s : Suggestion) (fw : Workspace),
      getByWorkspaceIDModel w wsID = .ok s →
      dbGetWorkspace w s.forWorkspaceID = .ok fw →
      recordActivity w now wsID =
        .ok ((if s.notifiedAt.isNone || s.dismissedAt.isSome then
                { w with suggestions := updateSuggestion w.suggestions (recordActivityRecord now s) }
              else w),
             (if s.notifiedAt.isNone then [(fw.userID, s.id)] else []))) ∧
    (∀ (ρ : Type) (w : SuggestionWorld ρ) (now : Nat) (wsID : String)
        (w' : SuggestionWorld ρ) (notifs : List (String × String)),
      recordActivity w now wsID = .ok (w', notifs) →
      ∀ (now2 : Nat) (w2 : SuggestionWorld ρ) (notifs2 : List (String × String)),
        recordActivity w' now2 wsID = .ok (w2, notifs2) → notifs2 = []) := by
  refine ⟨?_, ?_, ?_⟩
  · intro ρ w now wsID hf
    simp only [recordActivity, getByWorkspaceIDModel, hf]
    simp [GoError.isNoRows]
  · intro ρ w now wsID s fw hg hw
    exact recordActivity_eq w now wsID s fw hg hw
  · intro ρ w now wsID w' notifs h1 now2 w2 notifs2 h2
    cases hg : getByWorkspaceIDModel w wsID with
    | error e =>
      simp only [recordActivity, hg] at h1
      cases hno : e.isNoRows with
      | true =>
        rw [hno, if_pos rfl] at h1
        injection h1 with h1'
        have hw' : w = w' := congrArg Prod.fst h1'
        subst hw'
        simp only [recordActivity, hg] at h2
        rw [hno, if_pos rfl] at h2
        injection h2 with h2'
        exact (congrArg Prod.snd h2').symm
      | false =>
        rw [hno] at h1
        simp at h1
    | ok s =>
      cases hw : dbGetWorkspace w s.forWorkspaceID with
      | error e =>
        simp only [recordActivity, hg, hw] at h1
        exact Except.noConfusion h1
      | ok fw =>
        have heq := recordActivity_eq w now wsID s fw hg hw
        rw [heq] at h1
        injection h1 with h1'
        have hwld : w' = (if s.notifiedAt.isNone || s.dismissedAt.isSome then
            { w with suggestions := updateSuggestion w.suggestions (recordActivityRecord now s) }
          else w) := (congrArg Prod.fst h1').symm
        by_cases hcond : (s.notifiedAt.isNone || s.dismissedAt.isSome) = true
        · rw [if_pos hcond] at hwld
          have hfind0 := (getByWorkspaceIDModel_ok hg).1
          have hcb := (getByWorkspaceIDModel_ok hg).2
          have hfind2 : (updateSuggestion w.suggestions (recordActivityRecord now s)).find?
              (fun x => x.workspaceID == wsID) = some (recordActivityRecord now s) :=
            find?_updateSuggestion _ _ s (recordActivityRecord now s) hfind0 rfl rfl
          have hg2 : getByWorkspaceIDModel w' wsID = .ok (recordActivityRecord now s) := by
            subst hwld
            exact getByWorkspaceIDModel_build hfind2 hcb
          have hw2 : dbGetWorkspace w' (recordActivityRecord now s).forWorkspaceID = .ok fw := by
            subst hwld
            exact hw
          have heq2 := recordActivity_eq w' now2 wsID (recordActivityRecord now s) fw hg2 hw2
          rw [heq2] at h2
          injection h2 with h2'
          have hn2 : (recordActivityRecord now s).notifiedAt.isNone = false := by
            cases hsn : s.notifiedAt <;> simp [recordActivityRecord, hsn]
          have hsnd := congrArg Prod.snd h2'
          rw [hn2] at hsnd
          simpa using hsnd
        · rw [if_neg hcond] at hwld
          subst hwld
          have heq2 := recordActivity_eq w' now2 wsID s fw hg hw
          rw [heq2] at h2
          injection h2 with h2'
          simp only [Bool.or_eq_true, not_or, Bool.not_eq_true] at hcond
          have hsnd := congrArg Prod.snd h2'
          rw [hcond.1] at hsnd
          simpa using hsnd

/-- C6: `DismissHunks` only appends to the suggestion's `DismissedHunks`
ledger and persists the record — the repository state, the workspaces,
the snapshots and the codebases are untouched; likewise `Dismiss` only
sets `DismissedAt`. -/
theorem dismissHunks_only_ledger :
    (∀ (ρ : Type) (git : GitOps ρ) (w : SuggestionWorld ρ) (sugg : Suggestion)
        (hunkIDs : List String) (w' : SuggestionWorld ρ),
      dismissHunks git w sugg hunkIDs = .ok w' →
      w'.repo = w.repo ∧ w'.workspaces = w.workspaces ∧ w'.snapshots = w.snapshots ∧
      w'.codebases = w.codebases ∧
      (w' = w ∨ ∃ entries, w'.suggestions =
        updateSuggestion w.suggestions { sugg with dismissedHunks := sugg.dismissedHunks ++ entries })) ∧
    (∀ (ρ : Type) (w : SuggestionWorld ρ) (now : Nat) (sugg : Suggestion)
        (w' : SuggestionWorld ρ),
      dismissSuggestion w now sugg = .ok w' →
      w'.repo = w.repo ∧ w'.workspaces = w.workspaces ∧ w'.snapshots = w.snapshots ∧
      w'.codebases = w.codebases ∧
      w'.suggestions = updateSuggestion w.suggestions { sugg with dismissedAt := some now }) := by
  constructor
  · intro ρ git w sugg hunkIDs w' h
    unfold dismissHunks at h
    by_cases hids : hunkIDs.isEmpty
    · rw [if_pos hids] at h
      injection h with h'
      subst h'
      exact ⟨rfl, rfl, rfl, rfl, Or.inl rfl⟩
    · rw [if_neg hids] at h
      cases hw : dbGetWorkspace w sugg.forWorkspaceID with
      | error e =>
        simp only [hw] at h
        exact Except.noConfusion h
      | ok ows =>
        simp only [hw] at h
        cases hd : serviceDiffs git w sugg ows with
        | error e =>
          simp only [hd] at h
          exact Except.noConfusion h
        | ok fds =>
          simp only [hd] at h
          injection h with h'
          subst h'
          exact ⟨rfl, rfl, rfl, rfl, Or.inr ⟨_, rfl⟩⟩
  · intro ρ w now sugg w' h
    unfold dismissSuggestion at h
    injection h with h'
    subst h'
    exact ⟨rfl, rfl, rfl, rfl, rfl⟩

theorem mem_selectedFromFileGo (sel : String → Bool) (fname : String) (i : Nat)
    (hs : List DiffHunk) (e : String × String) :
    e ∈ selectedFromFileGo sel fname i hs ↔
      ∃ j h, hs.get? j = some h ∧ sel h.id = true ∧
        e = (h.patch, SuggestionHunk.toLedgerEntry ⟨fname, i + j⟩) := by
  induction hs generalizing i with
  | nil => simp [selectedFromFileGo]
  | cons hd rest ih =>
    simp only [selectedFromFileGo]
    by_cases hsel : sel hd.id
    · rw [if_pos hsel]
      constructor
      · intro hmem
        rcases List.mem_cons.mp hmem with heq | htail
        · exact ⟨0, hd, rfl, hsel, by simpa using heq⟩
        · obtain ⟨j, h, hget, h1, h2⟩ := (ih (i + 1)).mp htail
          refine ⟨j + 1, h, by simpa using hget, h1, ?_⟩
          rw [h2]
          have harith : i + 1 + j = i + (j + 1) := by omega
          rw [harith]
      · rintro ⟨j, h, hget, h1, h2⟩
        cases j with
        | zero =>
          simp only [List.get?] at hget
          injection hget with hget'
          subst hget'
          rw [h2]
          simp
        | succ j =>
          refine List.mem_cons_of_mem _ ((ih (i + 1)).mpr ⟨j, h, by simpa using hget, h1, ?_⟩)
          rw [h2]
          have harith : i + (j + 1) = i + 1 + j := by omega
          rw [harith]
    · rw [if_neg hsel]
      constructor
      · intro hmem
        obtain ⟨j, h, hget, h1, h2⟩ := (ih (i + 1)).mp hmem
        refine ⟨j + 1, h, by simpa using hget, h1, ?_⟩
        rw [h2]
        have harith : i + 1 + j = i + (j + 1) := by omega
        rw [harith]
      · rintro ⟨j, h, hget, h1, h2⟩
        cases j with
        | zero =>
          simp only [List.get?] at hget
          injection hget with hget'
          subst hget'
          exact absurd h1 hsel
        | succ j =>
          refine (ih (i + 1)).mpr ⟨j, h, by simpa using hget, h1, ?_⟩
          rw [h2]
          have harith : i + (j + 1) = i + 1 + j := by omega
          rw [harith]

theorem mem_selectedAll (sel : String → Bool) (fds : List FileDiff) (e : String × String) :
    e ∈ selectedAll sel fds ↔
      ∃ fd ∈ fds, ∃ j h, fd.hunks.get? j = some h ∧ sel h.id = true ∧
        e = (h.patch, SuggestionHunk.toLedgerEntry ⟨fd.preferredName, j⟩) := by
  induction fds with
  | nil => simp [selectedAll]
  | cons fd rest ih =>
    simp only [selectedAll, List.mem_append, ih, selectedFromFile,
      mem_selectedFromFileGo, Nat.zero_add, List.mem_cons]
    constructor
    · rintro (⟨j, h, hget, h1, h2⟩ | ⟨fd', hmem, hrest⟩)
      · exact ⟨fd, Or.inl rfl, j, h, hget, h1, h2⟩
      · exact ⟨fd', Or.inr hmem, hrest⟩
    · rintro ⟨fd', hmem | hmem, hrest⟩
      · subst hmem
        exact Or.inl hrest
      · exact Or.inr ⟨fd', hmem, hrest⟩

/-- C5: the entries `ApplyHunks` appends to `AppliedHunks` — and
`DismissHunks` appends to `DismissedHunks` — encode, for every hunk
selected by its hash id, the pair (preferred filename, 0-based hunk
index), rendered as a ledger entry, not the hash id itself. -/
theorem hunk_ledger_uses_filename_index :
    (∀ (sel : String → Bool) (fds : List FileDiff) (e : String × String),
      e ∈ selectedAll sel fds ↔
        ∃ fd ∈ fds, ∃ j h, fd.hunks.get? j = some h ∧ sel h.id = true ∧
          e = (h.patch, SuggestionHunk.toLedgerEntry ⟨fd.preferredName, j⟩)) ∧
    (∀ (ρ : Type) (git : GitOps ρ) (w : SuggestionWorld ρ) (sugg : Suggestion)
        (hunkIDs : List String) (w' : SuggestionWorld ρ) (ows : Workspace),
      hunkIDs.isEmpty = false →
      dbGetWorkspace w sugg.forWorkspaceID = .ok ows →
      applyHunks git w sugg hunkIDs = .ok w' →
      ∃ fds, serviceDiffs git w sugg ows = .ok fds ∧
        w'.suggestions = updateSuggestion w.suggestions
          ({ sugg with appliedHunks := sugg.appliedHunks ++
              (selectedAll (fun id => hunkIDs.contains id) fds).map Prod.snd })) ∧
    (∀ (ρ : Type) (git : GitOps ρ) (w : SuggestionWorld ρ) (sugg : Suggestion)
        (hunkIDs : List String) (w' : SuggestionWorld ρ) (ows : Workspace),
      hunkIDs.isEmpty = false →
      dbGetWorkspace w sugg.forWorkspaceID = .ok ows →
      dismissHunks git w sugg hunkIDs = .ok w' →
      ∃ fds, serviceDiffs git w sugg ows = .ok fds ∧
        w'.suggestions = updateSuggestion w.suggestions
          ({ sugg with dismissedHunks := sugg.dismissedHunks ++
              (selectedAll (fun id => hunkIDs.contains id) fds).map Prod.snd })) := by
  refine ⟨mem_selectedAll, ?_, ?_⟩
  · intro ρ git w sugg hunkIDs w' ows hne hws h
    unfold applyHunks at h
    rw [hne] at h
    simp only [Bool.false_eq_true, if_false, hws] at h
    cases hd : serviceDiffs git w sugg ows with
    | error e =>
      simp only [hd] at h
      exact Except.noConfusion h
    | ok fds =>
      simp only [hd] at h
      refine ⟨fds, rfl, ?_⟩
      cases hv : ows.viewID with
      | none =>
        simp only [hv] at h
        cases hls : ows.latestSnapshotID with
        | none =>
          simp only [hls] at h
          exact Except.noConfusion h
        | some sid =>
          simp only [hls] at h
          cases hgs : dbGetSnapshot w sid with
          | error e =>
            simp only [hgs] at h
            exact Except.noConfusion h
          | ok snap =>
            simp only [hgs] at h
            cases hco : git.checkoutSnapshot w.repo snap.commitSHA with
            | error e =>
              simp only [hco] at h
              exact Except.noConfusion h
            | ok r1 =>
              simp only [hco] at h
              cases hap : git.applyPatchesToWorkdir r1
                  ((selectedAll (fun id => hunkIDs.contains id) fds).map Prod.fst) with
              | error e =>
                simp only [hap] at h
                exact Except.noConfusion h
              | ok r2 =>
                simp only [hap] at h
                cases hms : git.makeSnapshot r2 ows.id with
                | error e =>
                  simp only [hms] at h
                  exact Except.noConfusion h
                | ok pr =>
                  obtain ⟨r3, newSnap⟩ := pr
                  simp only [hms] at h
                  injection h with h'
                  subst h'
                  rfl
      | some vid =>
        simp only [hv] at h
        cases hap : git.applyPatchesToWorkdir w.repo
            ((selectedAll (fun id => hunkIDs.contains id) fds).map Prod.fst) with
        | error e =>
          simp only [hap] at h
          exact Except.noConfusion h
        | ok r1 =>
          simp only [hap] at h
          injection h with h'
          subst h'
          rfl
  · intro ρ git w sugg hunkIDs w' ows hne hws h
    unfold dismissHunks at h
    rw [hne] at h
    simp only [Bool.false_eq_true, if_false, hws] at h
    cases hd : serviceDiffs git w sugg ows with
    | error e =>
      simp only [hd] at h
      exact Except.noConfusion h
    | ok fds =>
      simp only [hd] at h
      injection h with h'
      subst h'
      exact ⟨fds, rfl, rfl⟩

theorem modifyAt_outdated_false (f : DiffHunk → DiffHunk)
    (hf : ∀ h, (f h).isOutdated = h.isOutdated) (n : Nat) (hs : List DiffHunk)
    (hall : ∀ h ∈ hs, h.isOutdated = false) :
    ∀ h ∈ modifyAt f n hs, h.isOutdated = false := by
  induction hs generalizing n with
  | nil => intro h hh; simp [modifyAt] at hh
  | cons hd rest ih =>
    intro h hh
    cases n with
    | zero =>
      simp only [modifyAt] at hh
      rcases List.mem_cons.mp hh with heq | htail
      · subst heq
        rw [hf hd]
        exact hall hd (List.mem_cons_self _ _)
      · exact hall h (List.mem_cons_of_mem _ htail)
    | succ n =>
      simp only [modifyAt] at hh
      rcases List.mem_cons.mp hh with heq | htail
      · subst heq
        exact hall h (List.mem_cons_self _ _)
      · exact ih n (fun x hx => hall x (List.mem_cons_of_mem _ hx)) h htail

theorem foldl_setHunkFlag_outdated_false (f : DiffHunk → DiffHunk)
    (hf : ∀ h, (f h).isOutdated = h.isOutdated) (fname : String)
    (entries : List SuggestionHunk) (hs : List DiffHunk)
    (hall : ∀ h ∈ hs, h.isOutdated = false) :
    ∀ h ∈ entries.foldl (setHunkFlag f fname) hs, h.isOutdated = false := by
  induction entries generalizing hs with
  | nil => simpa [List.foldl] using hall
  | cons a rest ih =>
    simp only [List.foldl]
    refine ih (setHunkFlag f fname hs a) ?_
    unfold setHunkFlag
    by_cases hcond : (a.fileName == fname && decide (a.index < hs.length)) = true
    · rw [if_pos hcond]
      exact modifyAt_outdated_false f hf a.index hs hall
    · rw [if_neg hcond]
      exact hall

theorem markFileHunks_outdated_false (applied dismissed : List SuggestionHunk)
    (fd : FileDiff) (hall : ∀ h ∈ fd.hunks, h.isOutdated = false) :
    ∀ h ∈ (markFileHunks applied dismissed fd).hunks, h.isOutdated = false := by
  unfold markFileHunks
  exact foldl_setHunkFlag_outdated_false (fun h => { h with isDismissed := true })
    (fun h => rfl) fd.preferredName dismissed _
    (foldl_setHunkFlag_outdated_false (fun h => { h with isApplied := true })
      (fun h => rfl) fd.preferredName applied fd.hunks hall)

theorem markOutdatedHunksGo_tested_ge (canApply : String → Except GoError Bool) :
    ∀ (i : Nat) (hs res : List DiffHunk) (tested : List Nat),
      markOutdatedHunksGo canApply i hs = .ok (res, tested) →
      ∀ t ∈ tested, i ≤ t := by
  intro i hs
  induction hs generalizing i with
  | nil =>
    intro res tested h t ht
    simp only [markOutdatedHunksGo] at h
    injection h with h'
    have : tested = [] := (congrArg Prod.snd h').symm
    subst this
    simp at ht
  | cons hd rest ih =>
    intro res tested h t ht
    simp only [markOutdatedHunksGo] at h
    by_cases hskip : (hd.isApplied || hd.isDismissed) = true
    · rw [if_pos hskip] at h
      cases hrec : markOutdatedHunksGo canApply (i + 1) rest with
      | error e => rw [hrec] at h; exact Except.noConfusion h
      | ok pr =>
        obtain ⟨rest', tested'⟩ := pr
        rw [hrec] at h
        injection h with h'
        have htst : tested = tested' := (congrArg Prod.snd h').symm
        subst htst
        exact Nat.le_of_succ_le (ih (i + 1) rest' _ hrec t ht)
    · rw [if_neg hskip] at h
      cases hca : canApply hd.patch with
      | error e => rw [hca] at h; exact Except.noConfusion h
      | ok c =>
        rw [hca] at h
        cases hrec : markOutdatedHunksGo canApply (i + 1) rest with
        | error e => rw [hrec] at h; exact Except.noConfusion h
        | ok pr =>
          obtain ⟨rest', tested'⟩ := pr
          rw [hrec] at h
          injection h with h'
          have htst : tested = i :: tested' := (congrArg Prod.snd h').symm
          subst htst
          rcases List.mem_cons.mp ht with heq | htail
          · omega
          · exact Nat.le_of_succ_le (ih (i + 1) rest' tested' hrec t htail)

theorem markOutdatedHunksGo_skips (canApply : String → Except GoError Bool) :
    ∀ (i : Nat) (hs res : List DiffHunk) (tested : List Nat),
      markOutdatedHunksGo canApply i hs = .ok (res, tested) →
      ∀ j h, hs.get? j = some h → (h.isApplied = true ∨ h.isDismissed = true) →
        (i + j) ∉ tested ∧ res.get? j = some h := by
  intro i hs
  induction hs generalizing i with
  | nil =>
    intro res tested hrun j h hget
    simp at hget
  | cons hd rest ih =>
    intro res tested hrun j h hget hflag
    simp only [markOutdatedHunksGo] at hrun
    by_cases hskip : (hd.isApplied || hd.isDismissed) = true
    · rw [if_pos hskip] at hrun
      cases hrec : markOutdatedHunksGo canApply (i + 1) rest with
      | error e => rw [hrec] at hrun; exact Except.noConfusion hrun
      | ok pr =>
        obtain ⟨rest', tested'⟩ := pr
        rw [hrec] at hrun
        injection hrun with h'
        have hres : res = hd :: rest' := (congrArg Prod.fst h').symm
        have htst : tested = tested' := (congrArg Prod.snd h').symm
        subst hres
        subst htst
        cases j with
        | zero =>
          simp only [List.get?] at hget
          injection hget with hget'
          subst hget'
          constructor
          · intro hmem
            have := markOutdatedHunksGo_tested_ge canApply (i + 1) rest rest' _ hrec
              (i + 0) hmem
            omega
          · rfl
        | succ j =>
          have hrec2 := ih (i + 1) rest' _ hrec j h (by simpa using hget) hflag
          refine ⟨?_, by simpa using hrec2.2⟩
          have harith : i + (j + 1) = i + 1 + j := by omega
          rw [harith]
          exact hrec2.1
    · rw [if_neg hskip] at hrun
      cases hca : canApply hd.patch with
      | error e => rw [hca] at hrun; exact Except.noConfusion hrun
      | ok c =>
        rw [hca] at hrun
        cases hrec : markOutdatedHunksGo canApply (i + 1) rest with
        | error e => rw [hrec] at hrun; exact Except.noConfusion hrun
        | ok pr =>
          obtain ⟨rest', tested'⟩ := pr
          rw [hrec] at hrun
          injection hrun with h'
          have hres : res = (if c then hd else { hd with isOutdated := true }) :: rest' :=
            (congrArg Prod.fst h').symm
          have htst : tested = i :: tested' := (congrArg Prod.snd h').symm
          subst hres
          subst htst
          cases j with
          | zero =>
            simp only [List.get?] at hget
            injection hget with hget'
            subst hget'
            rw [Bool.or_eq_true] at hskip
            rcases hflag with hb | hb
            · exact absurd (Or.inl hb) hskip
            · exact absurd (Or.inr hb) hskip
          | succ j =>
            have hrec2 := ih (i + 1) rest' _ hrec j h (by simpa using hget) hflag
            refine ⟨?_, by simpa using hrec2.2⟩
            intro hmem
            rcases List.mem_cons.mp hmem with heq | htail
            · omega
            · have harith : i + (j + 1) = i + 1 + j := by omega
              rw [harith] at htail
              exact hrec2.1 htail

/-- C10: in the suggestion diff computation, when the target workspace has
no view the decorated diffs are returned with no hunk marked outdated
(given that the decorated git diff carries no outdated marks itself); and
in the outdated-marking loop an applied or dismissed hunk is never tested
with `CanApplyPatch` and never marked outdated. -/
theorem diffs_outdated_only_with_view :
    (∀ (ρ : Type) (git : GitOps ρ) (w : SuggestionWorld ρ) (sugg : Suggestion)
        (ows : Workspace) (res : List FileDiff),
      (∀ a b fds, git.diffCommits w.repo a b = .ok fds →
        ∀ fd ∈ fds, ∀ h ∈ fd.hunks, h.isOutdated = false) →
      ows.viewID = none →
      serviceDiffs git w sugg ows = .ok res →
      ∀ fd ∈ res, ∀ h ∈ fd.hunks, h.isOutdated = false) ∧
    (∀ (canApply : String → Except GoError Bool) (i : Nat)
        (hs res : List DiffHunk) (tested : List Nat),
      markOutdatedHunksGo canApply i hs = .ok (res, tested) →
      ∀ j h, hs.get? j = some h → (h.isApplied = true ∨ h.isDismissed = true) →
        (i + j) ∉ tested ∧ res.get? j = some h) := by
  constructor
  · intro ρ git w sugg ows res henv hview hrun
    unfold serviceDiffs at hrun
    cases h1 : dbGetWorkspace w sugg.workspaceID with
    | error e =>
      simp only [h1] at hrun
      exact Except.noConfusion hrun
    | ok sw =>
      simp only [h1] at hrun
      cases hls : sw.latestSnapshotID with
      | none =>
        simp only [hls] at hrun
        injection hrun with hrun'
        subst hrun'
        intro fd hfd
        simp at hfd
      | some sid =>
        simp only [hls] at hrun
        cases h2 : dbGetSnapshot w sid with
        | error e =>
          simp only [h2] at hrun
          exact Except.noConfusion hrun
        | ok ss =>
          simp only [h2] at hrun
          cases h3 : dbGetSnapshot w sugg.forSnapshotID with
          | error e =>
            simp only [h3] at hrun
            exact Except.noConfusion hrun
          | ok bs =>
            simp only [h3] at hrun
            cases h4 : git.diffCommits w.repo bs.commitSHA ss.commitSHA with
            | error e =>
              simp only [h4] at hrun
              exact Except.noConfusion hrun
            | ok raw =>
              simp only [h4] at hrun
              cases h5 : parseHunks sugg.appliedHunks with
              | error e =>
                simp only [h5] at hrun
                exact Except.noConfusion hrun
              | ok applied =>
                simp only [h5] at hrun
                cases h6 : parseHunks sugg.dismissedHunks with
                | error e =>
                  simp only [h6] at hrun
                  exact Except.noConfusion hrun
                | ok dismissed =>
                  simp only [h6, hview] at hrun
                  injection hrun with hrun'
                  subst hrun'
                  intro fd hfd h hh
                  obtain ⟨fd0, hfd0, hmk⟩ := List.mem_map.mp hfd
                  subst hmk
                  exact markFileHunks_outdated_false applied dismissed fd0
                    (henv bs.commitSHA ss.commitSHA raw h4 fd0 hfd0) h hh
  · exact markOutdatedHunksGo_skips

/-- A suggestion from workspace `wsB` targeting `wsA`, previously
dismissed and never notified. -/
def demoSugg : Suggestion :=
  ⟨"sug1", "cb", "wsB", "wsA", "snapA", "userB", 1, some 5, none, [], []⟩

/-- The target workspace (no view, snapshot `snapA`). -/
def demoWsA : Workspace :=
  ⟨"wsA", "cb", "userA", none, none, some "snapA", none, none, false, none,
    none, "", none, none, none, 0, none⟩

/-- The suggesting workspace (snapshot `snapB`). -/
def demoWsB : Workspace :=
  ⟨"wsB", "cb", "userB", none, none, some "snapB", none, none, false, none,
    none, "", none, none, none, 0, none⟩

/-- A concrete suggestion-service world. -/
def demoWorld : SuggestionWorld Unit :=
  ⟨["cb"], [demoWsA, demoWsB], [⟨"snapA", "shaA"⟩, ⟨"snapB", "shaB"⟩], [demoSugg], ()⟩

/-- The world after the first `RecordActivity` run. -/
def demoWorldAfter : SuggestionWorld Unit :=
  { demoWorld with
    suggestions := updateSuggestion demoWorld.suggestions (recordActivityRecord 10 demoSugg) }

/-- The notifications of the second `RecordActivity` run. -/
def demoNotifsTwo : List (String × String) := []

/-- Witness for C4: on the concrete world the owner of `wsA` is notified
once, and a second run sends no notification. -/
theorem recordActivity_first_edit_notification_witness :
    recordActivity demoWorld 10 "wsB" = .ok (demoWorldAfter, [("userA", "sug1")]) ∧
    demoNotifsTwo = [] :=
  ⟨by rfl,
    recordActivity_first_edit_notification.2.2 Unit demoWorld 10 "wsB" demoWorldAfter
      [("userA", "sug1")] (by rfl) 11 demoWorldAfter demoNotifsTwo (by rfl)⟩

/-- A decorated diff with two hunks for the witnesses. -/
def demoFileDiff : FileDiff :=
  ⟨"a.txt", [⟨"h0", "p0", false, false, false⟩, ⟨"h1", "p1", false, false, false⟩]⟩

/-- A concrete git boundary over the trivial repository state. -/
def demoGit : GitOps Unit :=
  ⟨fun _ _ _ => .ok [demoFileDiff], fun _ _ => .ok true, fun r _ => .ok r,
    fun r _ => .ok r, fun r _ => .ok (r, ⟨"snapNew", "shaNew"⟩)⟩

/-- The world after applying hunk `h1` of the suggestion. -/
def demoApplyWorld : SuggestionWorld Unit :=
  ⟨["cb"],
    [{ demoWsA with latestSnapshotID := some "snapNew" }, demoWsB],
    [⟨"snapNew", "shaNew"⟩, ⟨"snapA", "shaA"⟩, ⟨"snapB", "shaB"⟩],
    [{ demoSugg with appliedHunks := ["a.txt#1"] }],
    ()⟩

/-- The world after dismissing hunk `h1` of the suggestion. -/
def demoDismissWorld : SuggestionWorld Unit :=
  { demoWorld with
    suggestions := updateSuggestion demoWorld.suggestions
      ({ demoSugg with dismissedHunks := ["a.txt#1"] }) }

/-- Witness for C5: applying the hunk with hash id `h1` records the ledger
entry `a.txt#1` (filename and 0-based index), not the hash id. -/
theorem hunk_ledger_uses_filename_index_witness :
    applyHunks demoGit demoWorld demoSugg ["h1"] = .ok demoApplyWorld ∧
    demoApplyWorld.suggestions = updateSuggestion demoWorld.suggestions
      ({ demoSugg with appliedHunks := demoSugg.appliedHunks ++
          (selectedAll (fun id => ["h1"].contains id) [demoFileDiff]).map Prod.snd }) ∧
    ("p1", "a.txt#1") ∈ selectedAll (fun id => ["h1"].contains id) [demoFileDiff] := by
  refine ⟨by rfl, ?_, ?_⟩
  · obtain ⟨fds, h1, h2⟩ := hunk_ledger_uses_filename_index.2.1 Unit demoGit demoWorld
      demoSugg ["h1"] demoApplyWorld demoWsA (by rfl) (by rfl) (by rfl)
    have hval : serviceDiffs demoGit demoWorld demoSugg demoWsA = .ok [demoFileDiff] := by rfl
    rw [hval] at h1
    injection h1 with h1'
    rw [← h1'] at h2
    exact h2
  · exact (hunk_ledger_uses_filename_index.1 (fun id => ["h1"].contains id)
      [demoFileDiff] ("p1", "a.txt#1")).mpr
      ⟨demoFileDiff, by decide, 1, ⟨"h1", "p1", false, false, false⟩, by rfl, by rfl, by rfl⟩

/-- Witness for C6: dismissing hunk `h1` leaves the repository, workspaces
and snapshots unchanged and only updates the suggestion ledger. -/
theorem dismissHunks_only_ledger_witness :
    dismissHunks demoGit demoWorld demoSugg ["h1"] = .ok demoDismissWorld ∧
    demoDismissWorld.repo = demoWorld.repo ∧
    demoDismissWorld.workspaces = demoWorld.workspaces ∧
    demoDismissWorld.snapshots = demoWorld.snapshots := by
  have h := dismissHunks_only_ledger.1 Unit demoGit demoWorld demoSugg ["h1"]
    demoDismissWorld (by rfl)
  exact ⟨by rfl, h.1, h.2.1, h.2.2.1⟩

/-- The dry-run oracle declaring every patch inapplicable. -/
def demoCanApply (_ : String) : Except GoError Bool := .ok false

/-- Decorated hunks: the first already dismissed, the second fresh. -/
def demoMarkedHunks : List DiffHunk :=
  [⟨"h0", "p0", false, true, false⟩, ⟨"h1", "p1", false, false, false⟩]

/-- The hunks after the outdated-marking loop: only the fresh one was
tested and marked. -/
def demoMarkedRes : List DiffHunk :=
  [⟨"h0", "p0", false, true, false⟩, ⟨"h1", "p1", false, false, true⟩]

/-- Witness for C10: with no view on the target workspace the diffs carry
no outdated mark, and a dismissed hunk is skipped by the marking loop. -/
theorem diffs_outdated_only_with_view_witness :
    serviceDiffs demoGit demoWorld demoSugg demoWsA = .ok [demoFileDiff] ∧
    (DiffHunk.mk "h0" "p0" false false false).isOutdated = false ∧
    markOutdatedHunksGo demoCanApply 0 demoMarkedHunks = .ok (demoMarkedRes, [1]) ∧
    (0 + 0) ∉ ([1] : List Nat) ∧
    demoMarkedRes.get? 0 = some ⟨"h0", "p0", false, true, false⟩ := by
  have hmark := diffs_outdated_only_with_view.2 demoCanApply 0 demoMarkedHunks
    demoMarkedRes [1] (by rfl) 0 ⟨"h0", "p0", false, true, false⟩ (by rfl) (Or.inr rfl)
  refine ⟨by rfl, ?_, by rfl, hmark.1, hmark.2⟩
  exact diffs_outdated_only_with_view.1 Unit demoGit demoWorld demoSugg demoWsA
    [demoFileDiff]
    (by
      intro a b fds h
      injection h with h'
      subst h'
      decide)
    (by rfl) (by rfl) demoFileDiff (by decide) ⟨"h0", "p0", false, false, false⟩ (by decide)
